import Mathlib

/-!
Verification of the `bnd-socket` TCP connection-bonding library
(`src/bond_tcp.rs`), via a shallow embedding of its framing codec,
rotation state machine, write/read loops and listener accept loop.

Bytes are modelled as `Nat` (values below 256 on the real wire), buffers
as `List Nat`.  Underlying TCP streams are modelled by explicit traces:
the sender produces a list of emissions (member index, bytes written),
the receiver consumes per-member pending byte lists.  Readiness polling
is modelled favourably: every `wait` immediately reports the registered
member ready, so every non-termination result below holds even in the
friendliest environment.
-/

namespace BndSocket

/-- Constant `const FRAGMENT_SIZE: usize = 8192;` from `bond_tcp.rs`. -/
def FRAGMENT_SIZE : Nat := 8192

/-- Encoding `u32::to_le_bytes` of a length (lengths are below `2^32` here). -/
def le32 (n : Nat) : List Nat :=
  [n % 256, n / 256 % 256, n / 65536 % 256, n / 16777216 % 256]

/-- Decoding `u32::from_le_bytes` (`read_frame_len` decodes the 4 header bytes). -/
def le32dec (bs : List Nat) : Nat :=
  bs.getD 0 0 + 256 * bs.getD 1 0 + 65536 * bs.getD 2 0 + 16777216 * bs.getD 3 0

/-- Rust slice `&buf[inf..sup]`. -/
def extract (buf : List Nat) (inf sup : Nat) : List Nat :=
  (buf.drop inf).take (sup - inf)

/-! ## Sender side: `BondTcpStream::write` -/

/-- The sender-relevant fields of `BondTcpStream`: `streams.len()` and the
rotation cursor `next_stream`. -/
structure SendState where
  numStreams : Nat
  next_stream : Nat
  deriving Repr, DecidableEq

/-- One call of `write_loop` on the wire: some bytes written on a member. -/
structure Emission where
  member : Nat
  bytes : List Nat
  deriving Repr, DecidableEq

/-- Result of `BondTcpStream::write`: the updated stream state, the trace of
`write_loop` emissions in order, and the returned `usize`. -/
structure WriteResult where
  state : SendState
  emissions : List Emission
  ret : Nat
  deriving Repr, DecidableEq

/-- Net effect of `write_loop(buf)` when the first underlying `write` accepts
the whole buffer: all of `buf` goes out on `streams[next_stream]` and
`Ok(buf.len())` is returned.  (The retry path taken after a short first
write is modelled separately by `writeLoopRun`, which shows it never
returns.) -/
def write_loop (st : SendState) (buf : List Nat) : Emission × Nat :=
  (⟨st.next_stream, buf⟩, buf.length)

/-- The chunking loop of `write` for `buf.len() >= FRAGMENT_SIZE`:

```
let mut sup = FRAGMENT_SIZE; let mut k = 0;
while sup < buf.len() {
    let inf = k * FRAGMENT_SIZE;
    k += 1;
    sup = std::cmp::min(k*FRAGMENT_SIZE, buf.len());
    let _ = self.write_loop(&buf[inf..sup])?;
}
```

returned as the list of `(inf, sup)` bounds in emission order.  `fuel`
bounds the iteration count; `writeChunks` supplies `len + 1`, which is
ample since each iteration needs `k * FRAGMENT_SIZE < len` with `k`
increasing by one. -/
def writeChunksAux (len : Nat) : Nat → Nat → Nat → List (Nat × Nat)
  | 0, _, _ => []
  | fuel + 1, sup, k =>
    if sup < len then
      (k * FRAGMENT_SIZE, min ((k + 1) * FRAGMENT_SIZE) len) ::
        writeChunksAux len fuel (min ((k + 1) * FRAGMENT_SIZE) len) (k + 1)
    else []

/-- The `(inf, sup)` chunk bounds produced by a large write of `len` bytes. -/
def writeChunks (len : Nat) : List (Nat × Nat) :=
  writeChunksAux len (len + 1) FRAGMENT_SIZE 0

/-- Method `<BondTcpStream as Write>::write(buf)`:

```
if buf.len() < FRAGMENT_SIZE {
    let len_bs = (buf.len() as u32).to_le_bytes();
    let _ = self.write_loop(&len_bs)?;
    let _ = self.write_loop(buf)?;
} else {
    /* chunk loop, see writeChunks */
}
self.next_stream = (self.next_stream + 1) % self.streams.len();
Ok(buf.len())
```

Every `write_loop` call inside one `write` call targets the same member
`next_stream`, which is only advanced once, after the branch. -/
def bondWrite (st : SendState) (buf : List Nat) : WriteResult :=
  ⟨⟨st.numStreams, (st.next_stream + 1) % st.numStreams⟩,
    if buf.length < FRAGMENT_SIZE then
      [(write_loop st (le32 buf.length)).1, (write_loop st buf).1]
    else
      (writeChunks buf.length).map (fun p => (write_loop st (extract buf p.1 p.2)).1),
    buf.length⟩

/-! ## `write_loop`'s short-write retry path

```
let n = self.streams[self.next_stream].write(buf)?;
if n < buf.len() {
    let mut index = n;
    loop {
        events.clear();
        let _ = self.w_poller.modify(.., Event::writable(..));
        let _ = self.w_poller.wait(&mut events, None)?;
        for e in events.iter() {
            if e.key == self.next_stream {
                let n = self.streams[self.next_stream].write(&buf[index..buf.len()])?;
                index += n;
            }
            if index == buf.len() { break; }   // exits only the `for`
        }
    }
}
Ok(buf.len())
```

The member flow is modelled by `accepts : Nat → Nat`, the number of bytes
the i-th underlying `write` call accepts (capped at the number requested).
Each `wait` is assumed to report exactly the event keyed by `next_stream`
(the flow is always writable again), so each outer `loop` iteration makes
one underlying write.  The `break` leaves the inner `for`; the outer
`loop` has no exit, so the iteration recurses unconditionally. -/

/-- One outer `loop` iteration per fuel unit; `none` means the loop was
still running when the fuel ran out (it runs forever: no fuel returns
`some`). -/
def writeLoopAux (accepts : Nat → Nat) (len : Nat) : Nat → Nat → Nat → Option Nat
  | 0, _, _ => none
  | fuel + 1, index, i =>
    writeLoopAux accepts len fuel (index + min (accepts i) (len - index)) (i + 1)

/-- Running `write_loop` on a `len`-byte buffer against the flow `accepts`, run for
`fuel` outer iterations of the retry loop. -/
def writeLoopRun (accepts : Nat → Nat) (len fuel : Nat) : Option Nat :=
  let n := min (accepts 0) len
  if n < len then writeLoopAux accepts len fuel n 1 else some len

/-! ## `read_loop`'s underlying-read oracle model

```
let mut n = match self.streams[self.next_stream].read(buf) {
    Ok(n) => n,
    Err(_) => 0
};
let len = buf.len();
while n < len {
    events.clear();
    self.r_poller.modify(.., Event::readable(..))?;
    let _ = self.r_poller.wait(&mut events, None)?;
    for e in events.iter() {
        if e.key == self.next_stream {
            n += self.streams[self.next_stream].read(&mut buf[n..len])?;
        }
    }
}
Ok(buf.len())
```

`reads i` is the result of the i-th underlying `read` call: `.ok k` for
`Ok(k)` (`k` capped at the bytes requested; a flow at end-of-stream
answers `.ok 0` forever), `.err` for any `Err` other than would-block
(e.g. a connection reset).  Each `wait` is assumed to report exactly the
event keyed by `next_stream`, so each `while` iteration makes one
underlying read. -/

inductive ReadRes where
  | ok (n : Nat)
  | err
  deriving Repr, DecidableEq

/-- The `while n < len` loop of `read_loop`; `none` means still looping
when the fuel ran out, `some (.error ())` that an `Err` propagated
through `?`, `some (.ok m)` that `Ok(m)` was returned. -/
def readLoopAux (reads : Nat → ReadRes) (len : Nat) :
    Nat → Nat → Nat → Option (Except Unit Nat)
  | 0, _, _ => none
  | fuel + 1, n, i =>
    if n < len then
      match reads i with
      | .err => some (.error ())
      | .ok k => readLoopAux reads len fuel (n + min k (len - n)) (i + 1)
    else some (.ok len)

/-- Running `read_loop` on a `len`-byte buffer against the flow `reads`: the first
speculative read has any error collapsed to `0` bytes (`Err(_) => 0`),
then the readiness loop runs for at most `fuel` iterations. -/
def readLoopRun (reads : Nat → ReadRes) (len fuel : Nat) : Option (Except Unit Nat) :=
  let n := match reads 0 with
    | .ok k => min k len
    | .err => 0
  readLoopAux reads len fuel n 1

/-! ## Receiver side: `BondTcpStream::read`

Net-effect model, for runs in which every `read_loop` call finds enough
data: the pending inbound bytes of each member flow are a `List Nat`, and
`read_loop(buf)` removes and returns `buf.len()` bytes from the front of
the current member's list.  When fewer bytes are pending, `read_loop`
never returns (shown on `readLoopRun`); that outcome is modelled as
`none`. -/

/-- The receiver-relevant fields of `BondTcpStream`: the pending inbound
bytes of each member (`inbound.length` is `streams.len()`), the rotation
cursor `next_stream` and the mid-frame residue `readable`. -/
structure RecvState where
  inbound : List (List Nat)
  next_stream : Nat
  readable : Nat
  deriving Repr, DecidableEq

/-- Net effect of `read_loop` on a `c`-byte buffer: take `c` bytes from
the front of `streams[next_stream]`; `none` when fewer are pending
(the real loop would block forever). -/
def recvTake (st : RecvState) (c : Nat) : Option (RecvState × List Nat) :=
  let data := st.inbound.getD st.next_stream []
  if c ≤ data.length then
    some (⟨st.inbound.set st.next_stream (data.drop c), st.next_stream, st.readable⟩,
      data.take c)
  else none

/-- Method `read_frame_len`: `read_loop` into a 4-byte buffer, decoded LE32. -/
def read_frame_len (st : RecvState) : Option (RecvState × Nat) :=
  (recvTake st 4).map (fun p => (p.1, le32dec p.2))

/-- Method `read_readable(buf)`:

```
if self.readable > 0 {
    let len = std::cmp::min(self.readable, buf.len());
    let n = self.read_loop(&mut buf[0..len])?;     // n == len
    if n == self.readable {
        self.next_stream = (self.next_stream + 1) % self.streams.len();
        self.readable = 0;
    } else {
        self.readable -= n;
    }
    Ok(n)
} else {
    Ok(0)
}
```

Returns the updated state, the bytes delivered, and `n`. -/
def read_readable (st : RecvState) (bufLen : Nat) :
    Option (RecvState × List Nat × Nat) :=
  if 0 < st.readable then
    let len := min st.readable bufLen
    (recvTake st len).map (fun p =>
      if len = st.readable then
        (⟨p.1.inbound, (p.1.next_stream + 1) % p.1.inbound.length, 0⟩, p.2, len)
      else
        (⟨p.1.inbound, p.1.next_stream, p.1.readable - len⟩, p.2, len))
  else some (st, [], 0)

/-- The `while n < buf.len()` frame loop of `read`:

```
while n < buf.len() {
    let len = self.read_frame_len()?;
    if len > buf.len() - n {
        self.readable = len - (buf.len() - n);
        n += self.read_loop(&mut buf[n..buf_len])?;
    } else {
        self.readable = 0;
        n += self.read_loop(&mut buf[n..buf_len])?;
        self.next_stream = (self.next_stream + 1) % self.streams.len();
    }
}
```

Both branches call `read_loop` on `buf[n..buf_len]`, so each iteration
raises `n` to `bufLen` and the loop body runs at most once; the fuel
(`bondRead` passes `bufLen + 1`) is therefore ample. -/
def readFrames (bufLen : Nat) :
    Nat → RecvState → Nat → List Nat → Option (RecvState × List Nat)
  | 0, _, _, _ => none
  | fuel + 1, st, n, acc =>
    if n < bufLen then
      match read_frame_len st with
      | none => none
      | some (st1, len) =>
        if len > bufLen - n then
          match recvTake ⟨st1.inbound, st1.next_stream, len - (bufLen - n)⟩ (bufLen - n) with
          | none => none
          | some (st2, out) =>
            readFrames bufLen fuel st2 (n + (bufLen - n)) (acc ++ out)
        else
          match recvTake ⟨st1.inbound, st1.next_stream, 0⟩ (bufLen - n) with
          | none => none
          | some (st2, out) =>
            readFrames bufLen fuel
              ⟨st2.inbound, (st2.next_stream + 1) % st2.inbound.length, st2.readable⟩
              (n + (bufLen - n)) (acc ++ out)
    else some (st, acc)

/-- Method `<BondTcpStream as Read>::read(buf)`: `read_readable`, then the frame
loop, then the unconditional trailing advance

```
self.next_stream = (self.next_stream + 1) % self.streams.len();
Ok(buf.len())
```

Returns the updated state, the bytes delivered into `buf`, and the
returned `usize` (always `buf.len()`). -/
def bondRead (st : RecvState) (bufLen : Nat) :
    Option (RecvState × List Nat × Nat) :=
  match read_readable st bufLen with
  | none => none
  | some (st1, out1, n) =>
    match readFrames bufLen (bufLen + 1) st1 n out1 with
    | none => none
    | some (st2, out) =>
      some (⟨st2.inbound, (st2.next_stream + 1) % st2.inbound.length, st2.readable⟩,
        out, bufLen)

/-! ## Listener side: `BondTcpListener::accept`

One iteration of the accept loop, after the 16-byte token of the new flow
has been read.  Flows are identified by abstract ids (`Nat`), UUIDs by
`Nat`; the fresh CID minted by `uuid::Uuid::new_v4()` in the `None`
branch is passed in as `freshCid`. -/

/-- The listener-relevant fields of `BondTcpListener`: the bond width
`stream_num` and the session table `accepted_connections`, an association
list `CID ↦ member flows so far`. -/
structure ListenerState where
  stream_num : Nat
  accepted_connections : List (Nat × List Nat)
  deriving Repr, DecidableEq

/-- Table lookup `HashMap::remove(&cid)`: the removed entry, if any, and the rest. -/
def tableRemove (tbl : List (Nat × List Nat)) (cid : Nat) :
    Option (List Nat) × List (Nat × List Nat) :=
  match tbl with
  | [] => (none, [])
  | e :: rest =>
    if e.1 = cid then (some e.2, rest)
    else
      let r := tableRemove rest cid
      (r.1, e :: r.2)

/-- Outcome of one accept-loop iteration: either the bonded stream is
returned to the caller, or the loop continues with an updated table. -/
inductive AcceptOut where
  | accepted (streams : List Nat)
  | pending (st : ListenerState)
  deriving Repr, DecidableEq

/-- One iteration of the `loop` in `BondTcpListener::accept`:

```
let (mut stream, addr) = self.listener.accept()?;
let n = stream.read(&mut cid_buf)?;
let cid = uuid::Uuid::from_bytes_le(cid_buf);
match self.accepted_connections.remove(&cid) {
    Some(mut streams) => {
        if streams.len() + 1 == self.stream_num as usize {
            streams.push(stream);
            /* register members, set non-blocking */
            return Ok((BondTcpStream { streams, .., next_stream: 0, readable: 0 }, addr));
        } else {
            streams.push(stream);
            self.accepted_connections.insert(cid, streams);
        }
    },
    None => {
        let cid = uuid::Uuid::new_v4();
        stream.write_all(&ns)?;          // bond width N
        stream.write_all(&cid_buf)?;     // minted CID
        self.accepted_connections.insert(cid, vec![stream]);
    }
}
```
-/
def acceptStep (st : ListenerState) (token flow freshCid : Nat) : AcceptOut :=
  match (tableRemove st.accepted_connections token).1 with
  | some streams =>
    if streams.length + 1 = st.stream_num then
      .accepted (streams ++ [flow])
    else
      .pending ⟨st.stream_num,
        (token, streams ++ [flow]) :: (tableRemove st.accepted_connections token).2⟩
  | none =>
    .pending ⟨st.stream_num,
      (freshCid, [flow]) :: (tableRemove st.accepted_connections token).2⟩

/-! ## Theorems -/

/-- Dropping past the length is the same as dropping the length. -/
theorem drop_min_length (buf : List Nat) (x : Nat) :
    buf.drop (min x buf.length) = buf.drop x := by
  rcases Nat.le_total x buf.length with h | h
  · rw [Nat.min_eq_left h]
  · rw [Nat.min_eq_right h, List.drop_length, List.drop_eq_nil_of_le h]

/-- Closed form of the chunk loop from an iteration boundary: starting at
`sup = min (k * FRAGMENT_SIZE) len` with counter `k` and enough fuel, the
i-th remaining chunk is `((k+i)·F, min ((k+i+1)·F) len)`. -/
theorem writeChunksAux_getElem (len : Nat) :
    ∀ fuel k i, len ≤ k * FRAGMENT_SIZE + fuel * FRAGMENT_SIZE →
      (writeChunksAux len fuel (min (k * FRAGMENT_SIZE) len) k)[i]? =
        if (k + i) * FRAGMENT_SIZE < len then
          some ((k + i) * FRAGMENT_SIZE, min ((k + i + 1) * FRAGMENT_SIZE) len)
        else none := by
  intro fuel
  induction fuel with
  | zero =>
    intro k i hb
    rw [if_neg (by simp only [FRAGMENT_SIZE] at hb ⊢; omega)]
    rfl
  | succ fuel ih =>
    intro k i hb
    by_cases hk : k * FRAGMENT_SIZE < len
    · simp only [writeChunksAux]
      rw [if_pos (by simp only [FRAGMENT_SIZE] at hk ⊢; omega)]
      cases i with
      | zero =>
        rw [if_pos (by simpa using hk)]
        simp
      | succ i =>
        rw [List.getElem?_cons_succ, ih (k + 1) i
          (by simp only [FRAGMENT_SIZE] at hb ⊢; omega)]
        have e1 : k + 1 + i = k + (i + 1) := by omega
        rw [e1]
    · simp only [writeChunksAux]
      rw [if_neg (by simp only [FRAGMENT_SIZE] at hk ⊢; omega),
        if_neg (by simp only [FRAGMENT_SIZE] at hk ⊢; omega)]
      rfl

/-- The slices named by the chunk loop, concatenated, are exactly the part
of the buffer from the current boundary on. -/
theorem writeChunksAux_flatten (buf : List Nat) :
    ∀ fuel k, buf.length ≤ k * FRAGMENT_SIZE + fuel * FRAGMENT_SIZE →
      ((writeChunksAux buf.length fuel (min (k * FRAGMENT_SIZE) buf.length) k).map
          (fun p => extract buf p.1 p.2)).flatten = buf.drop (k * FRAGMENT_SIZE) := by
  intro fuel
  induction fuel with
  | zero =>
    intro k hb
    simp only [writeChunksAux, List.map_nil, List.flatten_nil]
    symm
    exact List.drop_eq_nil_of_le (by simp only [FRAGMENT_SIZE] at hb ⊢; omega)
  | succ fuel ih =>
    intro k hb
    by_cases hk : k * FRAGMENT_SIZE < buf.length
    · simp only [writeChunksAux]
      rw [if_pos (by simp only [FRAGMENT_SIZE] at hk ⊢; omega)]
      simp only [List.map_cons, List.flatten_cons]
      rw [ih (k + 1) (by simp only [FRAGMENT_SIZE] at hb ⊢; omega)]
      rw [← drop_min_length buf ((k + 1) * FRAGMENT_SIZE)]
      simp only [extract]
      have e : k * FRAGMENT_SIZE + (min ((k + 1) * FRAGMENT_SIZE) buf.length
          - k * FRAGMENT_SIZE) = min ((k + 1) * FRAGMENT_SIZE) buf.length := by
        simp only [FRAGMENT_SIZE] at hk ⊢; omega
      have key := List.drop_take_append_drop buf (k * FRAGMENT_SIZE)
        (min ((k + 1) * FRAGMENT_SIZE) buf.length - k * FRAGMENT_SIZE)
      rw [e] at key
      exact key
    · simp only [writeChunksAux]
      rw [if_neg (by simp only [FRAGMENT_SIZE] at hk ⊢; omega)]
      simp only [List.map_nil, List.flatten_nil]
      symm
      exact List.drop_eq_nil_of_le (by simp only [FRAGMENT_SIZE] at hk ⊢; omega)

/-- Closed form of the whole chunk list of a large write. -/
theorem writeChunks_getElem (len i : Nat) (h : FRAGMENT_SIZE < len) :
    (writeChunks len)[i]? =
      if i * FRAGMENT_SIZE < len then
        some (i * FRAGMENT_SIZE, min ((i + 1) * FRAGMENT_SIZE) len)
      else none := by
  unfold writeChunks
  simp only [writeChunksAux, Nat.zero_add]
  rw [if_pos h]
  cases i with
  | zero =>
    rw [if_pos (by simp only [FRAGMENT_SIZE] at h ⊢; omega)]
    simp
  | succ i =>
    rw [List.getElem?_cons_succ]
    rw [writeChunksAux_getElem len len 1 i
      (by simp only [FRAGMENT_SIZE]; omega)]
    have e1 : 1 + i = i + 1 := by omega
    rw [e1]

/-- All the bytes of a large write's buffer appear in its chunk slices, in
order. -/
theorem writeChunks_flatten (buf : List Nat) (h : FRAGMENT_SIZE < buf.length) :
    ((writeChunks buf.length).map (fun p => extract buf p.1 p.2)).flatten = buf := by
  unfold writeChunks
  simp only [writeChunksAux, Nat.zero_add]
  rw [if_pos h]
  simp only [List.map_cons, List.flatten_cons]
  rw [writeChunksAux_flatten buf buf.length 1 (by simp only [FRAGMENT_SIZE]; omega)]
  rw [← drop_min_length buf (1 * FRAGMENT_SIZE)]
  simp only [extract, Nat.zero_mul, Nat.sub_zero, List.drop_zero]
  exact List.take_append_drop _ _

/-- Claim C6: for every write of a buffer `buf` with `|buf| < FRAGMENT_SIZE`
starting at rotation position `r`, exactly one frame is produced — the
4-byte little-endian length `|buf|` followed by the bytes of `buf`,
entirely on `streams[r]` — `next_stream` advances to `(r+1) mod N`, and
`write` returns `|buf|`. -/
theorem write_small_frame (buf : List Nat) (N r : Nat)
    (h : buf.length < FRAGMENT_SIZE) :
    bondWrite ⟨N, r⟩ buf =
      ⟨⟨N, (r + 1) % N⟩, [⟨r, le32 buf.length⟩, ⟨r, buf⟩], buf.length⟩ := by
  simp [bondWrite, write_loop, h]

/-- Witness for `write_small_frame` at `buf = [7, 8]`, `N = 2`, `r = 1`. -/
theorem write_small_frame_witness :
    ([7, 8] : List Nat).length < FRAGMENT_SIZE ∧
    bondWrite ⟨2, 1⟩ [7, 8] = ⟨⟨2, 0⟩, [⟨1, [2, 0, 0, 0]⟩, ⟨1, [7, 8]⟩], 2⟩ :=
  ⟨by decide, write_small_frame [7, 8] 2 1 (by decide)⟩

/-- Claim C2: a write of exactly `FRAGMENT_SIZE = 8192` bytes emits nothing
at all — the chunk loop's guard `sup < buf.len()` is already false at
entry (`sup` starts at `FRAGMENT_SIZE`) — yet `write` still advances
`next_stream` and returns `Ok(8192)`. -/
theorem write_exact_fragment_size_emits_nothing :
    bondWrite ⟨2, 0⟩ (List.replicate 8192 (0 : Nat)) = ⟨⟨2, 1⟩, [], 8192⟩ := by
  have h0 : writeChunks 8192 = [] := rfl
  generalize hb : List.replicate 8192 (0 : Nat) = buf
  have hlen : buf.length = 8192 := by rw [← hb]; exact List.length_replicate 8192 0
  simp [bondWrite, FRAGMENT_SIZE, h0, hlen]

/-- Claim C1, counterexample: for a write of `2 * FRAGMENT_SIZE` bytes at
rotation position `r = 0` with `N = 2` members, both chunks are emitted on
member `0`; in particular chunk `k = 1` is on member `0`, not on member
`(r + k) mod N = 1` as the claim states. -/
theorem write_large_rotation_cex :
    ((bondWrite ⟨2, 0⟩ (List.replicate 16384 (0 : Nat))).emissions.map
      Emission.member) = [0, 0] ∧ (0 : Nat) ≠ (0 + 1) % 2 := by
  constructor
  · have h1 : writeChunks 16384 = [(0, 8192), (8192, 16384)] := rfl
    generalize hb : List.replicate 16384 (0 : Nat) = buf
    have hlen : buf.length = 16384 := by
      rw [← hb]; exact List.length_replicate 16384 0
    simp [bondWrite, write_loop, FRAGMENT_SIZE, h1, hlen]
  · decide

/-- Claim C1 (amended): for every write of a buffer `buf` with
`|buf| > FRAGMENT_SIZE` starting at rotation position `r` with `N`
members, the payload is split into chunks where chunk `k` covers bytes
`[k·F, min ((k+1)·F) |buf|)` with no per-chunk length header, every byte
of `buf` is emitted in order, and afterwards the rotation position is
`(r+1) mod N` and `|buf|` is returned; but every chunk is emitted on
member `r` itself — `write_loop` always targets `streams[next_stream]`,
which is not advanced between chunks. -/
theorem write_large_layout (buf : List Nat) (N r : Nat)
    (h : FRAGMENT_SIZE < buf.length) :
    (bondWrite ⟨N, r⟩ buf).ret = buf.length ∧
    (bondWrite ⟨N, r⟩ buf).state = ⟨N, (r + 1) % N⟩ ∧
    (∀ e ∈ (bondWrite ⟨N, r⟩ buf).emissions, e.member = r) ∧
    (∀ k, (bondWrite ⟨N, r⟩ buf).emissions[k]? =
        if k * FRAGMENT_SIZE < buf.length then
          some ⟨r, extract buf (k * FRAGMENT_SIZE)
            (min ((k + 1) * FRAGMENT_SIZE) buf.length)⟩
        else none) ∧
    ((bondWrite ⟨N, r⟩ buf).emissions.map Emission.bytes).flatten = buf := by
  have hnot : ¬ buf.length < FRAGMENT_SIZE := by omega
  refine ⟨rfl, rfl, ?_, ?_, ?_⟩
  · intro e he
    simp only [bondWrite, write_loop, if_neg hnot] at he
    obtain ⟨p, _, rfl⟩ := List.mem_map.mp he
    rfl
  · intro k
    simp only [bondWrite, write_loop, if_neg hnot]
    rw [List.getElem?_map, writeChunks_getElem buf.length k h]
    split
    · rfl
    · rfl
  · simp only [bondWrite, write_loop, if_neg hnot]
    rw [List.map_map]
    exact writeChunks_flatten buf h

/-- Witness for `write_large_layout` at a buffer of `2 * FRAGMENT_SIZE`
zero bytes, `N = 2`, `r = 0`. -/
theorem write_large_layout_witness :
    FRAGMENT_SIZE < (List.replicate 16384 (0 : Nat)).length ∧
    ((bondWrite ⟨2, 0⟩ (List.replicate 16384 (0 : Nat))).emissions.map
      Emission.bytes).flatten = List.replicate 16384 (0 : Nat) :=
  ⟨by norm_num [FRAGMENT_SIZE],
    (write_large_layout (List.replicate 16384 (0 : Nat)) 2 0
      (by norm_num [FRAGMENT_SIZE])).2.2.2.2⟩

/-- The retry loop of `write_loop` has no exit at all: whatever the flow
accepts, it is still running when any amount of fuel runs out. -/
theorem writeLoopAux_eq_none (accepts : Nat → Nat) (len : Nat) :
    ∀ fuel index i, writeLoopAux accepts len fuel index i = none := by
  intro fuel
  induction fuel with
  | zero => intro index i; rfl
  | succ fuel ih =>
    intro index i
    simp only [writeLoopAux]
    exact ih _ _

/-- Claim C7: `write_loop` returns `buf.len()` only when the first
underlying write already accepted everything; after a short first write it
never terminates, because the `break` leaves only the inner `for` over the
readiness events and the outer `loop` has no exit.  Concretely, on a
2-byte buffer whose first underlying write accepts 1 byte (and every later
write accepts all it is offered), the loop is still running after any
number of iterations; while with a complete first write it returns 2. -/
theorem write_loop_never_terminates_after_short_write :
    (∀ fuel, writeLoopRun (fun _ => 1) 2 fuel = none) ∧
    writeLoopRun (fun _ => 2) 2 0 = some 2 := by
  constructor
  · intro fuel
    exact writeLoopAux_eq_none (fun _ => 1) 2 fuel 1 1
  · rfl

/-- Witness for `write_loop_never_terminates_after_short_write` at
`fuel = 5`. -/
theorem write_loop_never_terminates_witness :
    writeLoopRun (fun _ => 1) 2 5 = none :=
  write_loop_never_terminates_after_short_write.1 5

/-- At end-of-stream every underlying read returns `Ok(0)`, so `n` never
grows and the readiness loop of `read_loop` runs forever. -/
theorem readLoopAux_eof_none :
    ∀ fuel n i, n < 5 →
      readLoopAux (fun _ => ReadRes.ok 0) 5 fuel n i = none := by
  intro fuel
  induction fuel with
  | zero => intro n i _; rfl
  | succ fuel ih =>
    intro n i h
    simp only [readLoopAux]
    rw [if_pos h]
    show readLoopAux (fun _ => ReadRes.ok 0) 5 fuel (n + min 0 (5 - n)) (i + 1) = none
    have e : n + min 0 (5 - n) = n := by omega
    rw [e]
    exact ih n (i + 1) h

/-- Claim C8: when a member flow is at end-of-stream (every underlying
read yields `Ok(0)`) while 5 bytes are still needed, `read_loop` never
returns — the zero-byte reads are added to `n` with no end-of-stream
check, so the loop polls forever instead of surfacing a short read. -/
theorem read_loop_spins_on_eof :
    ∀ fuel, readLoopRun (fun _ => ReadRes.ok 0) 5 fuel = none := by
  intro fuel
  exact readLoopAux_eof_none fuel 0 1 (by decide)

/-- Witness for `read_loop_spins_on_eof` at `fuel = 7`. -/
theorem read_loop_spins_on_eof_witness :
    readLoopRun (fun _ => ReadRes.ok 0) 5 7 = none :=
  read_loop_spins_on_eof 7

/-- Claim C9, counterexample: an underlying error (other than would-block,
e.g. a connection reset) on the very first speculative read of `read_loop`
is not surfaced: with the first call erroring and the continuation call
delivering 5 bytes, `read_loop` returns `Ok(5)` — the error was silently
converted into zero bytes read by `Err(_) => 0`. -/
theorem read_first_error_swallowed_cex :
    readLoopRun (fun i => if i = 0 then ReadRes.err else ReadRes.ok 5) 5 2 =
      some (Except.ok 5) ∧
    readLoopRun (fun i => if i = 0 then ReadRes.err else ReadRes.ok 5) 5 2 ≠
      some (Except.error ()) := by
  refine ⟨rfl, fun h => ?_⟩
  rw [show readLoopRun (fun i => if i = 0 then ReadRes.err else ReadRes.ok 5) 5 2 =
    some (Except.ok 5) from rfl] at h
  exact Except.noConfusion (Option.some.inj h)

/-- Claim C9 (amended): any underlying error on a continuation read — a
read made inside the readiness loop of `read_loop`, while bytes are still
needed — propagates through `?` and is surfaced to the caller as an error
result; only the first speculative read swallows errors. -/
theorem readLoop_continuation_error_surfaced (reads : Nat → ReadRes)
    (len n i fuel : Nat) (h1 : n < len) (h2 : reads i = ReadRes.err) :
    readLoopAux reads len (fuel + 1) n i = some (Except.error ()) := by
  simp only [readLoopAux]
  rw [if_pos h1, h2]

/-- Witness for `readLoop_continuation_error_surfaced` with an
always-erroring flow, `len = 5`, at loop state `n = 0`, `i = 1`. -/
theorem readLoop_continuation_error_surfaced_witness :
    (0 : Nat) < 5 ∧ (fun _ : Nat => ReadRes.err) 1 = ReadRes.err ∧
    readLoopAux (fun _ : Nat => ReadRes.err) 5 1 0 1 = some (Except.error ()) :=
  ⟨by decide, rfl,
    readLoop_continuation_error_surfaced (fun _ => ReadRes.err) 5 0 1 0
      (by decide) rfl⟩

/-- Claim C3: with bond width `N = 1`, the first (and only) flow of a
session does not complete it: the token of a first flow is never in the
table, so the `None` branch stores the flow as a fresh 1-member session —
a session with `N` members held in the table — and `accept` keeps
looping; even a second flow presenting the minted CID only grows the
session to 2 members, so `accept` never returns a one-member bonded
stream. -/
theorem accept_width_one_keeps_looping :
    acceptStep ⟨1, []⟩ 99 0 7 = .pending ⟨1, [(7, [0])]⟩ ∧
    acceptStep ⟨1, [(7, [0])]⟩ 7 1 8 = .pending ⟨1, [(7, [0, 1])]⟩ :=
  ⟨rfl, rfl⟩

/-- Claim C4: with `N = 2`, `next_stream = 0`, `readable = 0`, member 0
holding a frame of length `L = 5` (header `[5,0,0,0]`, payload
`[10,20,30,40,50]`) and a 3-byte caller buffer, `read` delivers 3 payload
bytes and sets `readable = 2`, but the unconditional advance after the
`while` loop moves `next_stream` to 1 while the 2 unconsumed bytes
`[40,50]` remain on member 0 — so the residue is *not* on
`streams[next_stream]`, and the follow-up read (which looks for it on
member 1) blocks forever (`none`). -/
theorem read_residue_on_wrong_member :
    bondRead ⟨[[5, 0, 0, 0, 10, 20, 30, 40, 50], []], 0, 0⟩ 3 =
      some (⟨[[40, 50], []], 1, 2⟩, [10, 20, 30], 3) ∧
    bondRead ⟨[[40, 50], []], 1, 2⟩ 2 = none :=
  ⟨rfl, rfl⟩

/-- Claim C5: after `k = 1` small write the sender's cursor has advanced
by 1 (to `1 mod 3`), as claimed; but after the receiver consumes that one
frame with one `read` call its cursor has advanced by 2 (to `2 mod 3`),
not 1 — the exactly-consumed-frame branch advances once and the trailing
statement after the `while` loop advances again. -/
theorem rotation_lockstep_broken :
    (bondWrite ⟨3, 0⟩ [1, 2, 3, 4, 5]).state.next_stream = 1 ∧
    bondRead ⟨[[5, 0, 0, 0, 1, 2, 3, 4, 5], [], []], 0, 0⟩ 5 =
      some (⟨[[], [], []], 2, 0⟩, [1, 2, 3, 4, 5], 5) :=
  ⟨rfl, rfl⟩

/-- Claim C10: on a bonded stream with `readable = 0`, a `read` with an
empty buffer returns `Ok(0)` and leaves the member flows and `readable`
unchanged, but still advances `next_stream` by one modulo `N`, although no
frame was consumed. -/
theorem read_empty_buffer (st : RecvState) (h : st.readable = 0)
    (hN : 0 < st.inbound.length) :
    bondRead st 0 =
      some (⟨st.inbound, (st.next_stream + 1) % st.inbound.length, 0⟩, [], 0) := by
  simp [bondRead, read_readable, readFrames, h]

/-- Witness for `read_empty_buffer` at a two-member stream. -/
theorem read_empty_buffer_witness :
    (⟨[[1, 2, 3], [4]], 0, 0⟩ : RecvState).readable = 0 ∧
    0 < (⟨[[1, 2, 3], [4]], 0, 0⟩ : RecvState).inbound.length ∧
    bondRead ⟨[[1, 2, 3], [4]], 0, 0⟩ 0 =
      some (⟨[[1, 2, 3], [4]], 1, 0⟩, [], 0) :=
  ⟨rfl, by decide, read_empty_buffer ⟨[[1, 2, 3], [4]], 0, 0⟩ rfl (by decide)⟩

end BndSocket
